import Mathlib

/-!
Verification of the azure-iot-library repository (configuration loader and
HAL response layer) against its natural-language specification.

The definitions below are a shallow embedding of the TypeScript sources:

* `src/configuration/src/fileConfiguration.ts` (FileConfiguration)
* `src/hal/src/response.ts` (Response)

Repository files that are imported by those sources but are not present in
the source tree (getVal.ts, server.ts, template.ts, constants.ts), and the
external collaborators the spec excludes from scope (the halson HAL library,
JSON.parse, url.parse), are modelled from the specification; each such
definition carries a doc comment saying so.
-/

/-! ## JavaScript values as seen by the configuration component -/

/-- A JavaScript value that the configuration component can hold. The
constructors other than `vcyclic` are the JSON values produced by parsing a
configuration file. `vcyclic` is modelled from the spec: it stands for a
value that JSON.stringify cannot serialize (a cyclic object); it never
arises from parsing, but the getString contract quantifies over it. -/
inductive JsVal : Type where
  | vnull : JsVal
  | vbool : Bool → JsVal
  | vnum : Int → JsVal
  | vstr : String → JsVal
  | varr : List JsVal → JsVal
  | vobj : List (String × JsVal) → JsVal
  | vcyclic : JsVal
deriving Repr

/-- Escape a string for JSON output, as JSON.stringify does for the
characters our inputs contain. -/
def jsonEscape (s : String) : String :=
  s.foldl (fun acc c =>
    acc ++ (if c = '"' then "\\\"" else if c = '\\' then "\\\\" else String.singleton c)) ""

/-- Quote a string as a JSON string literal. -/
def jsonQuote (s : String) : String := "\"" ++ jsonEscape s ++ "\""

mutual

/-- JSON.stringify on a JavaScript value: `none` models the exception thrown
on a non-serializable (cyclic) value, `some s` the produced string. -/
def jsonStringify : JsVal → Option String
  | .vnull => some "null"
  | .vbool b => some (cond b "true" "false")
  | .vnum n => some (toString n)
  | .vstr s => some (jsonQuote s)
  | .varr xs =>
    match jsonStringifyElems xs with
    | some ss => some ("[" ++ String.intercalate "," ss ++ "]")
    | none => none
  | .vobj fs =>
    match jsonStringifyFields fs with
    | some ss => some ("\x7b" ++ String.intercalate "," ss ++ "\x7d")
    | none => none
  | .vcyclic => none

/-- Stringify the elements of a JSON array, failing if any element fails. -/
def jsonStringifyElems : List JsVal → Option (List String)
  | [] => some []
  | x :: xs =>
    match jsonStringify x, jsonStringifyElems xs with
    | some s, some ss => some (s :: ss)
    | _, _ => none

/-- Stringify the fields of a JSON object, failing if any value fails. -/
def jsonStringifyFields : List (String × JsVal) → Option (List String)
  | [] => some []
  | f :: fs =>
    match jsonStringify f.2, jsonStringifyFields fs with
    | some s, some ss => some ((jsonQuote f.1 ++ ":" ++ s) :: ss)
    | _, _ => none

end

/-! ## FileConfiguration (src/configuration/src/fileConfiguration.ts) -/

/-- A key path passed to get and getString: a single key or an ordered
sequence of nested keys (TypeScript type string | string[]). -/
inductive Key : Type where
  | one : String → Key
  | path : List String → Key
deriving Repr

/-- Render a key the way JavaScript template interpolation renders it inside
the error message (arrays join with commas). -/
def Key.toStr : Key → String
  | .one s => s
  | .path ss => String.intercalate "," ss

/-- Look up one property on a JavaScript value; anything but an object with
that property yields the null sentinel. -/
def objGet (k : String) : JsVal → JsVal
  | .vobj fs => (fs.lookup k).getD .vnull
  | _ => .vnull

/-- Modelled from the spec: getVal (imported from getVal.ts, which is not in
the source tree) returns the JSON value at the given key path, descending
through nested objects, or a null sentinel if the path is missing. -/
def getVal : Key → JsVal → JsVal
  | .one k, v => objGet k v
  | .path ks, v => ks.foldl (fun acc k => objGet k acc) v

/-- The fileReadingErrMsg constant of fileConfiguration.ts. -/
def fileReadingErrMsg : String := "User config file found but unable to be read"

/-- FileConfiguration.get: returns the value associated with the key, null
if no value is set. -/
def FileConfiguration.get (key : Key) (fileConfig : JsVal) : JsVal :=
  getVal key fileConfig

/-- FileConfiguration.getString: returns the value unchanged when it is a
string or null; otherwise attempts JSON.stringify, and the caught
stringification failure becomes the thrown coercion error (modelled as
Except.error). -/
def FileConfiguration.getString (key : Key) (fileConfig : JsVal) : Except String JsVal :=
  let val := getVal key fileConfig
  match val with
  | .vstr s => .ok (.vstr s)
  | .vnull => .ok .vnull
  | v =>
    match jsonStringify v with
    | some s => .ok (.vstr s)
    | none =>
      .error ("Configuration service found value for " ++ key.toStr ++ " that was not a string.")

/-- The observable state of a FileConfiguration instance: its in-memory
fileConfig object and the messages passed to the logger. -/
structure FileConfigState : Type where
  fileConfig : JsVal := .vobj []
  logs : List String := []
deriving Repr

/-- The change handler registered by FileConfiguration.initialize on the
file watcher: re-read the file, re-parse it, and on any failure keep the
previous configuration and log the failure (the try/catch of the source is
modelled by the Except match, so the handler is a total function and never
propagates an exception). The platform builtins are parameters: readResult
is the outcome of re-reading the file and parse models JSON.parse. -/
def FileConfiguration.watcherOnChange (parse : String → Except String JsVal)
    (st : FileConfigState) (readResult : Except String String) : FileConfigState :=
  match readResult.bind parse with
  | .ok cfg => { st with fileConfig := cfg }
  | .error e => { st with logs := st.logs ++ [fileReadingErrMsg ++ " - " ++ e] }

/-! ## HAL layer data model (src/hal/src/response.ts) -/

/-- Modelled from the spec: the server context passed around the HAL layer.
The linker namespaces relations per server; an empty object (the source
writes a literal empty object to bypass namespacing) carries no namespace. -/
structure SrvCtx : Type where
  ns : Option String := none
deriving Repr, DecidableEq

/-- A parsed URL object as produced by url.parse, and equally the partial
URL-component patch a caller may pass as an href override; absent fields are
none. -/
structure UrlObj : Type where
  protocol : Option String := none
  host : Option String := none
  pathname : Option String := none
  search : Option String := none
  hash : Option String := none
deriving Repr, DecidableEq

/-- An href as it appears in hal.Overrides: either a string or a
URL-component object. -/
inductive Href : Type where
  | str : String → Href
  | obj : UrlObj → Href
deriving Repr, DecidableEq

/-- Request or template parameters: a string-keyed mapping, modelled as an
association list whose lookup takes the first matching key. -/
abbrev Params := List (String × String)

/-- Object.assign over two parameter objects where the second argument wins;
placing b first makes lookup prefer its keys. -/
def Params.assign (a b : Params) : Params := b ++ a

/-- Remove a key from a parameter object (the delete statement in docs). -/
def Params.removeKey (ps : Params) (k : String) : Params :=
  ps.filter (fun p => p.1 ≠ k)

/-- The hal.Overrides shape used throughout response.ts: every field is
optional, and a missing field is none. Link templates returned by the linker
are merged with Object.assign into the same shape, so they share this type. -/
structure Overrides : Type where
  server : Option SrvCtx := none
  rel : Option String := none
  params : Option Params := none
  href : Option Href := none
  id : Option String := none
  array : Option Bool := none
  links : Option (List String) := none
deriving Repr, DecidableEq

/-- Object.assign of two override objects: fields present on b overwrite a. -/
def Overrides.assign (a b : Overrides) : Overrides :=
  { server := b.server <|> a.server
    rel := b.rel <|> a.rel
    params := b.params <|> a.params
    href := b.href <|> a.href
    id := b.id <|> a.id
    array := b.array <|> a.array
    links := b.links <|> a.links }

/-- Truthiness of a JavaScript string: nonempty. -/
def truthyStr (s : String) : Bool := s ≠ ""

/-- Truthiness of an optional string: present and nonempty. -/
def truthyOS : Option String → Bool
  | some s => truthyStr s
  | none => false

/-- Truthiness of an optional href: a string href must be nonempty, an
object href is always truthy, an absent href is falsy. -/
def truthyHref : Option Href → Bool
  | some (.str s) => truthyStr s
  | some (.obj _) => true
  | none => false

/-- Truthiness of an optional boolean, as used for the array flag. -/
def truthyOB : Option Bool → Bool
  | some b => b
  | none => false

/-- A HAL link object as stored in the _links mapping. Modelled from the
spec: Template.link produces an object with the applied href string and, for
identified links such as curies, a name taken from the id field (the docs
deduplication compares link.name against the curie name). -/
structure HalLink : Type where
  href : String := ""
  name : Option String := none
deriving Repr, DecidableEq

/-- A slot in a halson _links or _embedded mapping: a single value until the
library or ensureArray turns it into an array. -/
inductive Slot (α : Type) : Type where
  | one : α → Slot α
  | many : List α → Slot α
deriving Repr, DecidableEq

/-- Number of values held by a slot. -/
def Slot.size : Slot α → Nat
  | .one _ => 1
  | .many ls => ls.length

/-- Append a value to a slot, as halson addLink and addEmbed do on an
already-populated relation. -/
def Slot.push (s : Slot α) (a : α) : Slot α :=
  match s with
  | .one x => .many [x, a]
  | .many ls => .many (ls ++ [a])

/-- The values of a slot as a list, in order. -/
def Slot.toList : Slot α → List α
  | .one x => [x]
  | .many ls => ls

/-- A halson relation-keyed mapping of slots. -/
abbrev SlotMap (α : Type) := List (String × Slot α)

/-- Replace the slot stored under a relation (the first occurrence; a
JavaScript object holds each key once). -/
def SlotMap.set : SlotMap α → String → Slot α → SlotMap α
  | [], rel, s => [(rel, s)]
  | p :: rest, rel, s =>
    if p.1 = rel then (rel, s) :: rest else p :: SlotMap.set rest rel s

/-- Modelled from the spec (halson addLink/addEmbed): a fresh relation gets
a single value, a second value under the same relation turns the slot into a
two-element array, and later values append to the array. -/
def SlotMap.add (m : SlotMap α) (rel : String) (a : α) : SlotMap α :=
  match m.lookup rel with
  | none => m ++ [(rel, .one a)]
  | some s => SlotMap.set m rel (s.push a)

/-- The ensureArray helper of response.ts: if the ensure flag is truthy and
the slot holds a single value, wrap it into a one-element array. -/
def SlotMap.ensureArray (m : SlotMap α) (rel : String) (ensure : Bool) : SlotMap α :=
  if ensure then
    match m.lookup rel with
    | some (.one v) => SlotMap.set m rel (.many [v])
    | _ => m
  else m

/-- Total number of values stored across all slots of a mapping. -/
def SlotMap.total (m : SlotMap α) : Nat :=
  m.foldr (fun p n => p.2.size + n) 0

/-- Modelled from the spec (constants.ts is not in the source tree): the
well-known curies relation used for documentation links. -/
def Rel.Curies : String := "curies"

/-- Modelled from the spec: the well-known rel parameter removed before a
curie link is templated. -/
def Rel.Param : String := "rel"

/-- Modelled from the spec: the self link relation. -/
def LinkRelation.Self : String := "self"

/-- Modelled from the spec: Rel.stringify renders a relation as the string
key used in the _links mapping; relations are modelled as strings, so this
is the identity. -/
def Rel.stringify (r : String) : String := r

/-- Modelled from the spec: the automatic namespacing the linker applies to
a relation. A server that declares a namespace prefixes the relation with
it; the empty server context (a literal empty object in the source) leaves
the relation unchanged. -/
def Linker.normalize (s : SrvCtx) (r : String) : String :=
  match s.ns with
  | some n => n ++ ":" ++ r
  | none => r

/-- Documentation metadata returned by the linker for a relation. -/
structure DocsInfo : Type where
  name : Option String := none
  href : Href := .str ""
deriving Repr

/-- Modelled from the spec: the RelationLinker collaborator (server.ts is
not in the source tree). getLinks returns the ordered link templates
registered for a relation under a server; getDocs returns the documentation
metadata or an empty object. -/
structure Linker : Type where
  getLinks : SrvCtx → String → List Overrides
  getDocs : SrvCtx → String → DocsInfo

/-- Modelled from the spec (template.ts is not in the source tree):
Template.apply substitutes the given path parameters into an href template;
each parameter key k replaces the occurrence of a colon followed by k. -/
def Template.apply (tmpl : String) (ps : Params) : String :=
  ps.foldl (fun acc p => acc.replace (":" ++ p.1) p.2) tmpl

/-- Render a URL object back to a string, as url.format does. -/
def UrlObj.format (u : UrlObj) : String :=
  u.protocol.getD "" ++ u.host.getD "" ++ u.pathname.getD "" ++ u.search.getD "" ++ u.hash.getD ""

/-- Modelled from the spec: Template.link turns a resolved override object
into a HAL link object, applying the parameters to a string href (an object
href is formatted), and carrying the id as the link name, which is what the
curie deduplication in docs inspects. -/
def Template.link (o : Overrides) : HalLink :=
  { href :=
      match o.href with
      | some (.str s) => Template.apply s (o.params.getD [])
      | some (.obj u) => UrlObj.format u
      | none => ""
    name := o.id }

/-- The href of a link template, coerced to a string the way the source
treats link.href (a non-null assertion followed by a string cast). -/
def Overrides.hrefString (h : Option Href) : String :=
  match h with
  | some (.str s) => s
  | some (.obj _) => "[object Object]"
  | none => "undefined"

/-- Modelled from url.parse (a platform builtin): split is not needed by any
claim, so the parsed object carries the string as its pathname. -/
def Url.parse (s : String) : UrlObj := { pathname := some s }

/-- Object.assign of a URL patch onto a parsed URL: fields present on the
patch overwrite the parsed fields. -/
def UrlObj.assign (base patch : UrlObj) : UrlObj :=
  { protocol := patch.protocol <|> base.protocol
    host := patch.host <|> base.host
    pathname := patch.pathname <|> base.pathname
    search := patch.search <|> base.search
    hash := patch.hash <|> base.hash }

/-- The body data of a HAL resource, opaque to every claim. -/
abbrev Data := String

/-- A halson HAL resource: its body data, its _links mapping and its
_embedded mapping. -/
inductive HalRes : Type where
  | mk : Data → SlotMap HalLink → List (String × Slot HalRes) → HalRes
deriving Repr

/-- The body data of a resource. -/
def HalRes.data : HalRes → Data
  | .mk d _ _ => d

/-- The _links mapping of a resource. -/
def HalRes.links : HalRes → SlotMap HalLink
  | .mk _ l _ => l

/-- The _embedded mapping of a resource. -/
def HalRes.embeds : HalRes → SlotMap HalRes
  | .mk _ _ e => e

/-- A fresh halson resource over the given body, with no links or embeds. -/
def HalRes.empty (d : Data) : HalRes := .mk d [] []

/-- halson addLink on a resource. -/
def HalRes.addLink (h : HalRes) (rel : String) (l : HalLink) : HalRes :=
  .mk h.data (SlotMap.add h.links rel l) h.embeds

/-- halson addEmbed on a resource. -/
def HalRes.addEmbed (h : HalRes) (rel : String) (r : HalRes) : HalRes :=
  .mk h.data h.links (SlotMap.add h.embeds rel r)

/-- ensureArray applied to the _links mapping of a resource. -/
def HalRes.ensureArrayLinks (h : HalRes) (rel : String) (ensure : Bool) : HalRes :=
  .mk h.data (SlotMap.ensureArray h.links rel ensure) h.embeds

/-- ensureArray applied to the _embedded mapping of a resource. -/
def HalRes.ensureArrayEmbeds (h : HalRes) (rel : String) (ensure : Bool) : HalRes :=
  .mk h.data h.links (SlotMap.ensureArray h.embeds rel ensure)

/-- The links stored under a relation, flattened to a list in order. -/
def HalRes.linkList (h : HalRes) (rel : String) : List HalLink :=
  match h.links.lookup rel with
  | none => []
  | some s => s.toList

/-- halson getLink with a filter callback: the first link under the relation
satisfying the predicate, if any. -/
def HalRes.getLinkWith (h : HalRes) (rel : String) (pred : HalLink → Bool) : Option HalLink :=
  ((h.linkList rel).filter pred).head?

/-! ## Response operations (src/hal/src/response.ts) -/

/-- The private state of one hal.Response resource as the operations see it:
its server context and request params, the halson resource of the root of
the response tree (every docs call is redirected there), and this resource's
own halson resource. For the root resource itself the two coincide; the
state models the general, nested case where they are distinct. -/
structure RespState : Type where
  server : SrvCtx := {}
  params : Params := []
  rootHal : HalRes := HalRes.empty ""
  ownHal : HalRes := HalRes.empty ""
deriving Repr

/-- The resource object returned by embed for further chained calls: its
server context, params and halson resource. -/
structure ResourceOut : Type where
  server : SrvCtx
  params : Params
  hal : HalRes
deriving Repr

/-- The console.error message of the unresolvableRel helper. -/
def unresolvableMsg (server : SrvCtx) (rel : String) : String :=
  "Cannot find rel: " ++ Rel.stringify (Linker.normalize server rel)

/-- The body of the map inside Response.resolve: splice the base candidate,
one linker template and the caller overrides (later wins), restore the
params union when the overrides did not specify params, replace the id by
the named param value, normalize the rel (bypassing the server when the rel
was overridden), and splice a URL-object href override onto the parsed
template href. -/
def Response.resolveOne (server : SrvCtx) (rel : String) (params : Params)
    (ov : Overrides) (link : Overrides) : Overrides :=
  let baseServer := ov.server.getD server
  let base : Overrides :=
    { rel := some rel, params := some params, links := some [], server := some baseServer }
  let r0 := Overrides.assign (Overrides.assign base link) ov
  let r1 :=
    if ov.params.isNone then
      { r0 with params := some (Params.assign params (link.params.getD [])) }
    else r0
  let r2 :=
    { r1 with id :=
        match r1.id with
        | none => none
        | some i => if truthyStr i then (r1.params.getD []).lookup i else some i }
  let r3 :=
    { r2 with rel :=
        match r2.rel with
        | none => none
        | some r =>
          if truthyStr r then
            some (Linker.normalize (if truthyOS ov.rel then {} else r2.server.getD {}) r)
          else some r }
  match ov.href with
  | some (.obj u) =>
    { r3 with href := some (.obj (UrlObj.assign
        (Url.parse (Template.apply (Overrides.hrefString link.href) (r3.params.getD []))) u)) }
  | _ => r3

/-- Response.resolve: query the linker for the templates of the rel under
the base server; when none are registered substitute a single empty dummy
template so overrides can still be processed; map each template through the
splice above, in registration order. -/
def Response.resolve (L : Linker) (server : SrvCtx) (rel : String) (params : Params)
    (ov : Overrides) : List Overrides :=
  let baseServer := ov.server.getD server
  let links := L.getLinks baseServer rel
  (if links.length > 0 then links else [{}]).map (Response.resolveOne server rel params ov)

/-- The instance docs method of Response: add the curie link for the name to
the halson resource of the root of the tree, unless a curie link with that
name is already present there; the well-known rel param is removed from the
fallthrough params first. Every access in the source goes through the root
back-reference, so only the root resource is read or written. -/
def Response.docsInst (rootHal : HalRes) (thisParams : Params) (name : String)
    (href : Href) : HalRes :=
  if (rootHal.getLinkWith Rel.Curies (fun l => l.name == some name)).isSome then rootHal
  else
    rootHal.addLink Rel.Curies
      (Template.link
        { href := some href, id := some name
          params := some (Params.removeKey thisParams Rel.Param) })

/-- The static docs helper of Response: fetch the documentation metadata of
the resolved rel and, when it carries a name, add the curie link through the
instance docs method. -/
def Response.docsStatic (L : Linker) (rootHal : HalRes) (thisParams : Params)
    (resolved : Overrides) : HalRes :=
  let docs := L.getDocs (resolved.server.getD {}) (resolved.rel.getD "")
  if truthyOS docs.name then
    Response.docsInst rootHal thisParams (docs.name.getD "") docs.href
  else rootHal

/-- The body of the loop inside Response.link, acting on one resolved
candidate: with both rel and href defined, add the documentation links, add
the link under the stringified rel and apply the array normalization;
otherwise log the unresolvable rel. -/
def Response.linkStep (L : Linker) (origRel : String)
    (acc : RespState × List String) (resolved : Overrides) : RespState × List String :=
  if truthyOS resolved.rel && truthyHref resolved.href then
    let str := Rel.stringify (resolved.rel.getD "")
    let root1 := Response.docsStatic L acc.1.rootHal acc.1.params resolved
    let own1 :=
      (acc.1.ownHal.addLink str (Template.link resolved)).ensureArrayLinks str
        (truthyOB resolved.array)
    ({ acc.1 with rootHal := root1, ownHal := own1 }, acc.2)
  else
    (acc.1, acc.2 ++ [unresolvableMsg acc.1.server origRel])

/-- Response.link: resolve the rel with the overrides and process every
resolved candidate in order. The second component collects the console.error
messages emitted for unresolvable candidates. -/
def Response.linkFn (L : Linker) (s : RespState) (rel : String)
    (ov : Overrides := {}) : RespState × List String :=
  (Response.resolve L s.server rel s.params ov).foldl (Response.linkStep L rel) (s, [])

/-- The static resource factory of Response together with its initialize
step: build a fresh halson resource over the body data, then add every
default link of the resolved object, the self link directly (templated when
body data is present) and the others through Response.link on the new
resource. The returned state couples the new resource (as ownHal) with the
possibly-updated root halson resource; the list collects emitted logs. -/
def Response.resourceFn (L : Linker) (rootHal : HalRes) (resolved : Overrides)
    (data : Data) (template : Bool) : RespState × List String :=
  let st0 : RespState :=
    { server := resolved.server.getD {}
      params := resolved.params.getD []
      rootHal := rootHal
      ownHal := HalRes.empty data }
  (resolved.links.getD []).foldl
    (fun acc lk =>
      if lk = LinkRelation.Self then
        ({ acc.1 with
            ownHal := acc.1.ownHal.addLink LinkRelation.Self
              (if template then Template.link resolved
               else
                 match resolved.href.getD (.str "") with
                 | .str s => { href := s }
                 | .obj u => { href := UrlObj.format u }) }, acc.2)
      else
        let r := Response.linkFn L acc.1 lk {}
        (r.1, acc.2 ++ r.2))
    (st0, [])

/-- Response.embed: resolve the rel and take only the first candidate. When
its rel is defined, create the embedded resource scoped to the value, add
the documentation links, register the new resource in this resource's
_embedded mapping and apply the array normalization; otherwise log the
unresolvable rel and return a dummy resource built from this resource's
server and params merged with the overrides, without registering it. The
result couples the updated state of this resource with the returned resource
object and the emitted logs. -/
def Response.embedFn (L : Linker) (s : RespState) (rel : String) (value : Data)
    (ov : Overrides := {}) : RespState × ResourceOut × List String :=
  let resolved := (Response.resolve L s.server rel s.params ov).headD {}
  if truthyOS resolved.rel then
    let str := Rel.stringify (resolved.rel.getD "")
    let r := Response.resourceFn L s.rootHal resolved value true
    let root2 := Response.docsStatic L r.1.rootHal s.params resolved
    let own2 := (s.ownHal.addEmbed str r.1.ownHal).ensureArrayEmbeds str (truthyOB resolved.array)
    ({ s with rootHal := root2, ownHal := own2 },
     ⟨r.1.server, r.1.params, r.1.ownHal⟩, r.2)
  else
    let dummy := Overrides.assign { server := some s.server, params := some s.params } ov
    let r := Response.resourceFn L s.rootHal dummy value true
    ({ s with rootHal := r.1.rootHal },
     ⟨r.1.server, r.1.params, r.1.ownHal⟩,
     [unresolvableMsg s.server rel] ++ r.2)

/-- Restrict a linker to at most the first registered template for one rel
under one server, leaving every other query and the documentation metadata
unchanged. -/
def Linker.truncateAt (L : Linker) (srv : SrvCtx) (rel : String) : Linker :=
  { L with
    getLinks := fun sv r =>
      if sv = srv ∧ r = rel then (L.getLinks sv r).take 1 else L.getLinks sv r }

/-! ## Derived observations used by the statements -/

/-- The well-formedness test Response.link applies to a resolved candidate:
both the rel and the href must be truthy. -/
def linkWF (c : Overrides) : Bool := truthyOS c.rel && truthyHref c.href

/-- Number of curie links carrying the given name in the _links mapping of a
resource. -/
def curieCount (h : HalRes) (n : String) : Nat :=
  ((h.linkList Rel.Curies).filter (fun l => l.name == some n)).length

/-! ## Concrete fixtures for the witnesses -/

/-- A linker with no registered templates and no documentation. -/
def witLinkerNone : Linker := { getLinks := fun _ _ => [], getDocs := fun _ _ => {} }

/-- A link template with a plain string href. -/
def witTemplateA : Overrides := { href := some (.str "/a") }

/-- A second link template with a different href. -/
def witTemplateB : Overrides := { href := some (.str "/b") }

/-- A linker registering two templates for the item rel. -/
def witLinkerTwo : Linker :=
  { getLinks := fun _ r => if r = "item" then [witTemplateA, witTemplateB] else []
    getDocs := fun _ _ => {} }

/-- A linker registering one template for the item rel. -/
def witLinkerOne : Linker :=
  { getLinks := fun _ r => if r = "item" then [witTemplateA] else []
    getDocs := fun _ _ => {} }

/-- A linker registering a single template with no href for the item rel. -/
def witLinkerBare : Linker :=
  { getLinks := fun _ r => if r = "item" then [{}] else []
    getDocs := fun _ _ => {} }

/-- An empty response state. -/
def witState : RespState := {}

/-- A parse function that fails on every input, standing for JSON.parse on
unparseable content. -/
def witParseFail : String → Except String JsVal :=
  fun _ => .error "SyntaxError: Unexpected token"

/-- A configuration holding an explicit null value. -/
def cfgNullField : JsVal := .vobj [("a", .vnull)]

/-- A configuration holding a number value. -/
def cfgNumField : JsVal := .vobj [("n", .vnum 5)]

/-! ## Lemmas about slot mappings -/

/-- Lookup distributes over append, preferring the left list. -/
theorem lookup_append_or {κ β : Type} [BEq κ] (a b : List (κ × β)) (k : κ) :
    (a ++ b).lookup k = (a.lookup k).or (b.lookup k) := by
  induction a with
  | nil => simp [List.lookup]
  | cons p rest ih =>
    obtain ⟨q, v⟩ := p
    cases hk : k == q <;> simp [List.lookup, hk, ih]

/-- Setting a slot makes it the one found by lookup. -/
theorem SlotMap.lookup_set_self {α : Type} (m : SlotMap α) (rel : String) (s : Slot α) :
    (SlotMap.set m rel s).lookup rel = some s := by
  induction m with
  | nil => simp [SlotMap.set, List.lookup]
  | cons p rest ih =>
    by_cases h : p.1 = rel
    · simp [SlotMap.set, h, List.lookup]
    · have hb : (rel == p.1) = false := by
        simp [Ne.symm h]
      simp [SlotMap.set, h, List.lookup, hb, ih]

/-- The total of a mapping starting with one entry. -/
theorem SlotMap.total_cons {α : Type} (p : String × Slot α) (m : SlotMap α) :
    SlotMap.total (p :: m) = p.2.size + m.total := rfl

/-- The total of a mapping distributes over append. -/
theorem SlotMap.total_append {α : Type} (m n : SlotMap α) :
    (m ++ n).total = m.total + n.total := by
  induction m with
  | nil => simp [SlotMap.total]
  | cons p rest ih =>
    rw [List.cons_append, SlotMap.total_cons, SlotMap.total_cons, ih]
    omega

/-- Replacing a looked-up slot changes the total by the difference of the
slot sizes. -/
theorem SlotMap.total_set_of_lookup {α : Type} {m : SlotMap α} {rel : String} {s : Slot α}
    (h : m.lookup rel = some s) (t : Slot α) :
    (SlotMap.set m rel t).total + s.size = m.total + t.size := by
  induction m with
  | nil => simp [List.lookup] at h
  | cons p rest ih =>
    obtain ⟨q, v⟩ := p
    by_cases hq : q = rel
    · subst hq
      simp [List.lookup] at h
      subst h
      simp [SlotMap.set, SlotMap.total_cons]
      omega
    · have hb : (rel == q) = false := by simp [Ne.symm hq]
      simp [List.lookup, hb] at h
      have := ih h
      simp [SlotMap.set, hq, SlotMap.total_cons]
      omega

/-- Pushing onto a slot grows it by one. -/
theorem Slot.size_push {α : Type} (s : Slot α) (a : α) : (s.push a).size = s.size + 1 := by
  cases s <;> simp [Slot.push, Slot.size]

/-- Adding a value to a mapping grows the total by exactly one. -/
theorem SlotMap.total_add {α : Type} (m : SlotMap α) (rel : String) (a : α) :
    (SlotMap.add m rel a).total = m.total + 1 := by
  cases hm : m.lookup rel with
  | none =>
    have hadd : SlotMap.add m rel a = m ++ [(rel, .one a)] := by simp [SlotMap.add, hm]
    rw [hadd, SlotMap.total_append]
    rfl
  | some s =>
    have h1 := SlotMap.total_set_of_lookup hm (s.push a)
    have h2 := Slot.size_push s a
    simp [SlotMap.add, hm]
    omega

/-- The array normalization never changes how many values a mapping holds. -/
theorem SlotMap.total_ensureArray {α : Type} (m : SlotMap α) (rel : String) (e : Bool) :
    (SlotMap.ensureArray m rel e).total = m.total := by
  by_cases he : e
  · cases hm : m.lookup rel with
    | none => simp [SlotMap.ensureArray, he, hm]
    | some s =>
      cases s with
      | one v =>
        have := SlotMap.total_set_of_lookup hm (Slot.many [v])
        simp [Slot.size] at this
        simp [SlotMap.ensureArray, he, hm]
        omega
      | many ls => simp [SlotMap.ensureArray, he, hm]
  · simp [SlotMap.ensureArray, he]

/-- The list of values in a pushed slot. -/
theorem Slot.toList_push {α : Type} (s : Slot α) (a : α) :
    (s.push a).toList = s.toList ++ [a] := by
  cases s <;> simp [Slot.push, Slot.toList]

/-! ## Lemmas about HAL resources -/

/-- The links mapping after addLink. -/
theorem HalRes.links_addLink (h : HalRes) (rel : String) (l : HalLink) :
    (h.addLink rel l).links = SlotMap.add h.links rel l := rfl

/-- The embeds mapping after addLink. -/
theorem HalRes.embeds_addLink (h : HalRes) (rel : String) (l : HalLink) :
    (h.addLink rel l).embeds = h.embeds := rfl

/-- The embeds mapping after addEmbed. -/
theorem HalRes.embeds_addEmbed (h : HalRes) (rel : String) (r : HalRes) :
    (h.addEmbed rel r).embeds = SlotMap.add h.embeds rel r := rfl

/-- The links mapping after ensureArrayLinks. -/
theorem HalRes.links_ensureArrayLinks (h : HalRes) (rel : String) (e : Bool) :
    (h.ensureArrayLinks rel e).links = SlotMap.ensureArray h.links rel e := rfl

/-- The embeds mapping after ensureArrayEmbeds. -/
theorem HalRes.embeds_ensureArrayEmbeds (h : HalRes) (rel : String) (e : Bool) :
    (h.ensureArrayEmbeds rel e).embeds = SlotMap.ensureArray h.embeds rel e := rfl

/-- addLink appends the new link at the end of the slot of its rel. -/
theorem HalRes.linkList_addLink_self (h : HalRes) (rel : String) (l : HalLink) :
    (h.addLink rel l).linkList rel = h.linkList rel ++ [l] := by
  unfold HalRes.linkList
  rw [HalRes.links_addLink]
  cases hm : h.links.lookup rel with
  | none =>
    have hadd : SlotMap.add h.links rel l = h.links ++ [(rel, .one l)] := by
      simp [SlotMap.add, hm]
    rw [hadd, lookup_append_or, hm]
    simp [List.lookup, Slot.toList]
  | some s =>
    have hadd : SlotMap.add h.links rel l = SlotMap.set h.links rel (s.push l) := by
      simp [SlotMap.add, hm]
    rw [hadd, SlotMap.lookup_set_self]
    simp [Slot.toList_push]

/-- Counting curie links through addLink at the curies rel. -/
theorem curieCount_addLink (h : HalRes) (n : String) (l : HalLink) :
    curieCount (h.addLink Rel.Curies l) n
      = curieCount h n + (if l.name == some n then 1 else 0) := by
  unfold curieCount
  rw [HalRes.linkList_addLink_self, List.filter_append]
  by_cases hl : (l.name == some n) = true
  · simp [hl]
  · simp [List.filter, hl]

/-- The curie search of docs finds a link exactly when the count of curie
links with that name is nonzero. -/
theorem getLinkWith_curie_isSome (h : HalRes) (n : String) :
    (h.getLinkWith Rel.Curies (fun l => l.name == some n)).isSome = true
      ↔ curieCount h n ≠ 0 := by
  unfold HalRes.getLinkWith curieCount
  cases hf : (h.linkList Rel.Curies).filter (fun l => l.name == some n) with
  | nil => simp [hf]
  | cons x xs => simp [hf]

/-- A docs call for a name not yet present adds exactly one curie link with
that name. -/
theorem docsInst_count_zero (h : HalRes) (p : Params) (n : String) (href : Href)
    (h0 : curieCount h n = 0) :
    curieCount (Response.docsInst h p n href) n = 1 := by
  unfold Response.docsInst
  have hs : (h.getLinkWith Rel.Curies (fun l => l.name == some n)).isSome = false := by
    cases hv : (h.getLinkWith Rel.Curies (fun l => l.name == some n)).isSome with
    | false => rfl
    | true => exact absurd h0 ((getLinkWith_curie_isSome h n).mp hv)
  rw [if_neg (by simp [hs])]
  rw [curieCount_addLink, h0]
  simp [Template.link]

/-- A docs call for a name already present is a no-op. -/
theorem docsInst_count_ne_zero (h : HalRes) (p : Params) (n : String) (href : Href)
    (h0 : curieCount h n ≠ 0) :
    Response.docsInst h p n href = h := by
  unfold Response.docsInst
  rw [if_pos ((getLinkWith_curie_isSome h n).mpr h0)]

/-- Any further sequence of docs calls with a name already present leaves
the root resource unchanged. -/
theorem foldl_docsInst_fixed (n : String) (calls : List (Params × Href)) :
    ∀ h : HalRes, curieCount h n ≠ 0 →
      calls.foldl (fun acc c => Response.docsInst acc c.1 n c.2) h = h := by
  induction calls with
  | nil => intro h _; rfl
  | cons c rest ih =>
    intro h hne
    rw [List.foldl_cons, docsInst_count_ne_zero h c.1 n c.2 hne]
    exact ih h hne

/-! ## Lemmas about link and embed -/

/-- A well-formed candidate makes linkStep add exactly one link and no log;
the server, params and root reference of the state survive unchanged. -/
theorem linkStep_wf (L : Linker) (origRel : String) (acc : RespState × List String)
    (c : Overrides) (h : linkWF c = true) :
    SlotMap.total ((Response.linkStep L origRel acc c).1.ownHal.links)
      = SlotMap.total acc.1.ownHal.links + 1
    ∧ (Response.linkStep L origRel acc c).2 = acc.2 := by
  unfold Response.linkStep
  unfold linkWF at h
  rw [if_pos (by simp [h])]
  refine ⟨?_, rfl⟩
  rw [HalRes.links_ensureArrayLinks, SlotMap.total_ensureArray,
    HalRes.links_addLink, SlotMap.total_add]

/-- An ill-formed candidate leaves the own resource untouched and appends
one unresolvable-rel log message. -/
theorem linkStep_nonwf (L : Linker) (origRel : String) (acc : RespState × List String)
    (c : Overrides) (h : linkWF c = false) :
    (Response.linkStep L origRel acc c).1.ownHal = acc.1.ownHal
    ∧ (Response.linkStep L origRel acc c).2
        = acc.2 ++ [unresolvableMsg acc.1.server origRel] := by
  unfold Response.linkStep
  unfold linkWF at h
  rw [if_neg (by simp [h])]
  exact ⟨rfl, rfl⟩

/-- Folding linkStep over a candidate list adds one link per well-formed
candidate and one log message per ill-formed candidate. -/
theorem linkFoldl_counts (L : Linker) (origRel : String) (cs : List Overrides) :
    ∀ acc : RespState × List String,
      SlotMap.total ((cs.foldl (Response.linkStep L origRel) acc).1.ownHal.links)
        = SlotMap.total acc.1.ownHal.links + (cs.filter linkWF).length
      ∧ ((cs.foldl (Response.linkStep L origRel) acc).2).length
        = acc.2.length + (cs.filter (fun c => !(linkWF c))).length := by
  induction cs with
  | nil => intro acc; simp
  | cons c rest ih =>
    intro acc
    rw [List.foldl_cons]
    obtain ⟨iht, ihl⟩ := ih (Response.linkStep L origRel acc c)
    cases hw : linkWF c with
    | true =>
      obtain ⟨ht, hl⟩ := linkStep_wf L origRel acc c hw
      constructor
      · rw [iht, ht]
        simp [List.filter, hw]
        omega
      · rw [ihl, hl]
        simp [List.filter, hw]
    | false =>
      obtain ⟨ht, hl⟩ := linkStep_nonwf L origRel acc c hw
      constructor
      · rw [iht, ht]
        simp [List.filter, hw]
      · rw [ihl, hl]
        simp [List.filter, hw]
        omega

/-! ## Lemmas about resolve -/

/-- resolve never returns an empty sequence. -/
theorem resolve_ne_nil (L : Linker) (server : SrvCtx) (rel : String) (params : Params)
    (ov : Overrides) : Response.resolve L server rel params ov ≠ [] := by
  cases hls : L.getLinks (ov.server.getD server) rel with
  | nil => simp [Response.resolve, hls]
  | cons x xs => simp [Response.resolve, hls]

/-- The first candidate of resolve is the splice of the first template, or
of the empty dummy template when none are registered. -/
theorem resolve_headD (L : Linker) (server : SrvCtx) (rel : String) (params : Params)
    (ov : Overrides) :
    (Response.resolve L server rel params ov).headD {}
      = Response.resolveOne server rel params ov
          ((L.getLinks (ov.server.getD server) rel).headD {}) := by
  cases hls : L.getLinks (ov.server.getD server) rel with
  | nil => simp [Response.resolve, hls]
  | cons x xs => simp [Response.resolve, hls]

/-- The splice never changes the links field beyond the override merge: with
an override links value of the empty list, the resolved candidate carries
the empty list. -/
theorem resolveOne_links_of_empty (server : SrvCtx) (rel : String) (params : Params)
    (ov : Overrides) (tmpl : Overrides) (h : ov.links = some []) :
    (Response.resolveOne server rel params ov tmpl).links = some [] := by
  unfold Response.resolveOne
  cases hh : ov.href with
  | none =>
    simp [Overrides.assign, h]
    split <;> rfl
  | some hr =>
    cases hr with
    | str s =>
      simp [Overrides.assign, h]
      split <;> rfl
    | obj u =>
      simp [Overrides.assign, h]
      split <;> rfl

/-- With an empty links list on the resolved object, the resource factory
consults nothing beyond its arguments: it returns the fresh resource state
and no logs, for any linker. -/
theorem resourceFn_of_links_empty (L : Linker) (rootHal : HalRes) (resolved : Overrides)
    (v : Data) (t : Bool) (h : resolved.links = some []) :
    Response.resourceFn L rootHal resolved v t
      = ({ server := resolved.server.getD {}
           params := resolved.params.getD []
           rootHal := rootHal
           ownHal := HalRes.empty v }, []) := by
  unfold Response.resourceFn
  rw [h]
  rfl

/-- Truncating a linker leaves its documentation metadata untouched. -/
theorem docsStatic_truncateAt (L : Linker) (srv : SrvCtx) (rel : String) (rootHal : HalRes)
    (p : Params) (resolved : Overrides) :
    Response.docsStatic (L.truncateAt srv rel) rootHal p resolved
      = Response.docsStatic L rootHal p resolved := rfl

/-- The first template surviving truncation is the first template. -/
theorem truncateAt_getLinks_headD (L : Linker) (srv : SrvCtx) (rel : String) :
    ((L.truncateAt srv rel).getLinks srv rel).headD ({} : Overrides)
      = (L.getLinks srv rel).headD {} := by
  unfold Linker.truncateAt
  simp only [if_pos (And.intro rfl rfl)]
  cases L.getLinks srv rel with
  | nil => rfl
  | cons x xs => rfl

/-- Dropping every template after the first changes nothing about embed:
with an explicit empty links override the embedded resource performs no
inner link calls, and embed consults only the head candidate of resolve. -/
theorem embedFn_truncate_eq (L : Linker) (s : RespState) (rel : String) (value : Data)
    (ov : Overrides) (hlk : ov.links = some []) :
    Response.embedFn L s rel value ov
      = Response.embedFn (L.truncateAt (ov.server.getD s.server) rel) s rel value ov := by
  have hhead : (Response.resolve (L.truncateAt (ov.server.getD s.server) rel)
        s.server rel s.params ov).headD ({} : Overrides)
      = (Response.resolve L s.server rel s.params ov).headD {} := by
    rw [resolve_headD, resolve_headD, truncateAt_getLinks_headD]
  have hlinks : ((Response.resolve L s.server rel s.params ov).headD ({} : Overrides)).links
      = some [] := by
    rw [resolve_headD]
    exact resolveOne_links_of_empty _ _ _ _ _ hlk
  have hdlinks : (Overrides.assign { server := some s.server, params := some s.params } ov).links
      = some [] := by
    simp [Overrides.assign, hlk]
  unfold Response.embedFn
  dsimp only
  rw [hhead]
  cases hcond : truthyOS ((Response.resolve L s.server rel s.params ov).headD {}).rel with
  | true =>
    rw [if_pos rfl, if_pos rfl,
      resourceFn_of_links_empty L _ _ _ _ hlinks,
      resourceFn_of_links_empty (L.truncateAt (ov.server.getD s.server) rel) _ _ _ _ hlinks,
      docsStatic_truncateAt]
  | false =>
    rw [if_neg (by simp), if_neg (by simp),
      resourceFn_of_links_empty L _ _ _ _ hdlinks,
      resourceFn_of_links_empty (L.truncateAt (ov.server.getD s.server) rel) _ _ _ _ hdlinks]

/-- The rel of a spliced candidate: override wins over template over the
base rel, and a truthy rel is normalized against the empty server exactly
when the override supplied a rel. -/
theorem resolveOne_rel_eval (server : SrvCtx) (rel : String) (params : Params)
    (ov : Overrides) (tmpl : Overrides) :
    (Response.resolveOne server rel params ov tmpl).rel
      = (match ov.rel <|> tmpl.rel <|> some rel with
         | none => none
         | some r =>
           if truthyStr r then
             some (Linker.normalize
               (if truthyOS ov.rel then {}
                else (ov.server <|> tmpl.server <|> some (ov.server.getD server)).getD {}) r)
           else some r) := by
  unfold Response.resolveOne
  cases hh : ov.href with
  | none =>
    dsimp only [Overrides.assign]
    by_cases hp : ov.params.isNone
    · rw [if_pos hp]
    · rw [if_neg hp]
  | some hr =>
    cases hr with
    | str s =>
      dsimp only [Overrides.assign]
      by_cases hp : ov.params.isNone
      · rw [if_pos hp]
      · rw [if_neg hp]
    | obj u =>
      dsimp only [Overrides.assign]
      by_cases hp : ov.params.isNone
      · rw [if_pos hp]
      · rw [if_neg hp]

/-- The params of a spliced candidate: the base-template union when the
override left params unspecified, the merged chain otherwise. -/
theorem resolveOne_params_eval (server : SrvCtx) (rel : String) (params : Params)
    (ov : Overrides) (tmpl : Overrides) :
    (Response.resolveOne server rel params ov tmpl).params
      = (if ov.params.isNone then some (Params.assign params (tmpl.params.getD []))
         else ov.params <|> tmpl.params <|> some params) := by
  unfold Response.resolveOne
  cases hh : ov.href with
  | none =>
    dsimp only [Overrides.assign]
    by_cases hp : ov.params.isNone
    · rw [if_pos hp, if_pos hp]
    · rw [if_neg hp, if_neg hp]
  | some hr =>
    cases hr with
    | str s =>
      dsimp only [Overrides.assign]
      by_cases hp : ov.params.isNone
      · rw [if_pos hp, if_pos hp]
      · rw [if_neg hp, if_neg hp]
    | obj u =>
      dsimp only [Overrides.assign]
      by_cases hp : ov.params.isNone
      · rw [if_pos hp, if_pos hp]
      · rw [if_neg hp, if_neg hp]

/-! ## Claim theorems -/

/-- C1: when a file-change event triggers a re-read whose content fails to
parse as JSON, the in-memory configuration is left exactly as it was, every
subsequent get returns the value it returned before, and the failure is
appended to the log; the handler is a total function, so nothing is thrown. -/
theorem c1_reload_parse_failure_preserves_config
    (parse : String → Except String JsVal) (st : FileConfigState) (content e : String)
    (h : parse content = .error e) :
    (FileConfiguration.watcherOnChange parse st (.ok content)).fileConfig = st.fileConfig
    ∧ (FileConfiguration.watcherOnChange parse st (.ok content)).logs
        = st.logs ++ [fileReadingErrMsg ++ " - " ++ e]
    ∧ ∀ key : Key,
        FileConfiguration.get key
            (FileConfiguration.watcherOnChange parse st (.ok content)).fileConfig
          = FileConfiguration.get key st.fileConfig := by
  unfold FileConfiguration.watcherOnChange
  rw [show (Except.ok content : Except String String).bind parse = parse content from rfl, h]
  exact ⟨rfl, rfl, fun _ => rfl⟩

/-- Witness for C1: a concrete failing parse on a concrete store. -/
theorem c1_reload_parse_failure_preserves_config_witness :
    (FileConfiguration.watcherOnChange witParseFail
        { fileConfig := cfgNumField, logs := [] } (.ok "not json")).fileConfig = cfgNumField
    ∧ (FileConfiguration.watcherOnChange witParseFail
        { fileConfig := cfgNumField, logs := [] } (.ok "not json")).logs
        = [] ++ [fileReadingErrMsg ++ " - " ++ "SyntaxError: Unexpected token"]
    ∧ FileConfiguration.get (.one "n")
        (FileConfiguration.watcherOnChange witParseFail
          { fileConfig := cfgNumField, logs := [] } (.ok "not json")).fileConfig
        = FileConfiguration.get (.one "n") cfgNumField := by
  have h := c1_reload_parse_failure_preserves_config witParseFail
    { fileConfig := cfgNumField, logs := [] } "not json" "SyntaxError: Unexpected token" rfl
  exact ⟨h.1, h.2.1, h.2.2 (.one "n")⟩

/-- C4 counterexample: a stored null value is a non-string JSON value that
JSON.stringify would render as the string null, yet getString returns the
null sentinel itself rather than that string, so the claim as stated fails
at this input. -/
theorem c4_counterexample_null_value :
    FileConfiguration.getString (.one "a") cfgNullField = .ok .vnull
    ∧ jsonStringify .vnull = some "null"
    ∧ (Except.ok JsVal.vnull : Except String JsVal) ≠ .ok (.vstr "null") := by
  refine ⟨rfl, rfl, ?_⟩
  intro hc
  injection hc with hv
  exact JsVal.noConfusion hv

/-- C4 amended: getString returns a string value unchanged, and on a
non-string non-null value returns its JSON-stringified form when one exists
and fails with the coercion error when stringification is impossible;
getString never mutates the store (it is a pure function of it). -/
theorem c4_getstring_identity_and_coercion (cfg : JsVal) (key : Key) :
    (∀ s, getVal key cfg = .vstr s →
      FileConfiguration.getString key cfg = .ok (.vstr s))
    ∧ (∀ v, getVal key cfg = v → (∀ s, v ≠ JsVal.vstr s) → v ≠ JsVal.vnull →
        FileConfiguration.getString key cfg
          = (match jsonStringify v with
             | some s => .ok (.vstr s)
             | none => .error ("Configuration service found value for " ++ key.toStr
                 ++ " that was not a string."))) := by
  constructor
  · intro s hs
    simp only [FileConfiguration.getString]
    rw [hs]
  · intro v hv hns hnn
    simp only [FileConfiguration.getString]
    rw [hv]
    cases v with
    | vnull => exact absurd rfl hnn
    | vstr s => exact absurd rfl (hns s)
    | vbool b => rfl
    | vnum n => rfl
    | varr xs => rfl
    | vobj fs => rfl
    | vcyclic => rfl

/-- Witness for the amended C4: a number value is returned JSON-stringified. -/
theorem c4_getstring_identity_and_coercion_witness :
    FileConfiguration.getString (.one "n") cfgNumField = .ok (.vstr "5") :=
  (c4_getstring_identity_and_coercion cfgNumField (.one "n")).2 (.vnum 5) rfl
    (fun _ hc => JsVal.noConfusion hc) (fun hc => JsVal.noConfusion hc)

/-- C10: a key path whose value is absent or null makes getString return the
null sentinel itself, which is not a string value. -/
theorem c10_getstring_null_sentinel (cfg : JsVal) (key : Key)
    (h : getVal key cfg = .vnull) :
    FileConfiguration.getString key cfg = .ok .vnull
    ∧ ∀ s : String, (Except.ok JsVal.vnull : Except String JsVal) ≠ .ok (.vstr s) := by
  constructor
  · simp only [FileConfiguration.getString]
    rw [h]
  · intro s hc
    injection hc with hv
    exact JsVal.noConfusion hv

/-- Witness for C10: an absent key yields the null sentinel. -/
theorem c10_getstring_null_sentinel_witness :
    FileConfiguration.getString (.one "missing") (.vobj []) = .ok .vnull :=
  (c10_getstring_null_sentinel (.vobj []) (.one "missing") rfl).1

/-- C2: when the linker returns zero templates for the rel under the base
server, resolve returns exactly one candidate, the splice of the base and
the overrides over the empty placeholder template. -/
theorem c2_resolve_placeholder_when_no_templates (L : Linker) (server : SrvCtx)
    (rel : String) (params : Params) (ov : Overrides)
    (h : L.getLinks (ov.server.getD server) rel = []) :
    Response.resolve L server rel params ov
      = [Response.resolveOne server rel params ov {}]
    ∧ (Response.resolve L server rel params ov).length = 1 := by
  have h1 : Response.resolve L server rel params ov
      = [Response.resolveOne server rel params ov {}] := by
    simp [Response.resolve, h]
  exact ⟨h1, by rw [h1]; rfl⟩

/-- Witness for C2: a linker with no templates and an override-only link. -/
theorem c2_resolve_placeholder_when_no_templates_witness :
    Response.resolve witLinkerNone {} "doc" [] { href := some (.str "/x") }
      = [Response.resolveOne {} "doc" [] { href := some (.str "/x") } {}] :=
  (c2_resolve_placeholder_when_no_templates witLinkerNone {} "doc" []
    { href := some (.str "/x") } rfl).1

/-- C3: an explicit rel override reaches every returned candidate verbatim,
bypassing the server namespacing; without an override (and with templates
that do not themselves override rel or server) the rel of every candidate is
the requested rel passed through the server namespacing. -/
theorem c3_resolve_rel_override_bypasses_namespacing (L : Linker) (server : SrvCtx)
    (rel : String) (params : Params) (ov : Overrides) :
    (truthyOS ov.rel = true →
      ∀ c ∈ Response.resolve L server rel params ov, c.rel = ov.rel)
    ∧ (ov.rel = none → ov.server = none → truthyStr rel = true →
        (∀ t ∈ L.getLinks server rel, t.rel = none ∧ t.server = none) →
        ∀ c ∈ Response.resolve L server rel params ov,
          c.rel = some (Linker.normalize server rel)) := by
  constructor
  · intro hrel c hc
    simp only [Response.resolve] at hc
    rw [List.mem_map] at hc
    obtain ⟨tmpl, _, rfl⟩ := hc
    rw [resolveOne_rel_eval]
    obtain ⟨r, hr, hrne⟩ : ∃ r, ov.rel = some r ∧ r ≠ "" := by
      cases hov : ov.rel with
      | none => rw [hov] at hrel; exact absurd hrel (by simp [truthyOS])
      | some r =>
        refine ⟨r, rfl, ?_⟩
        rw [hov] at hrel
        simp [truthyOS, truthyStr] at hrel
        exact hrel
    rw [hr]
    simp only [Option.some_orElse]
    rw [if_pos (by simp [truthyStr, hrne]),
      if_pos (show truthyOS (some r) = true by simp [truthyOS, truthyStr, hrne])]
    simp [Linker.normalize]
  · intro hrel hsrv htr htm c hc
    simp only [Response.resolve] at hc
    rw [List.mem_map] at hc
    obtain ⟨tmpl, htmem, rfl⟩ := hc
    have htt : tmpl.rel = none ∧ tmpl.server = none := by
      by_cases hlen : 0 < (L.getLinks (ov.server.getD server) rel).length
      · rw [if_pos hlen] at htmem
        rw [hsrv] at htmem
        exact htm tmpl htmem
      · rw [if_neg hlen] at htmem
        rw [List.mem_singleton] at htmem
        subst htmem
        exact ⟨rfl, rfl⟩
    rw [resolveOne_rel_eval, hrel, htt.1, htt.2, hsrv]
    simp only [Option.none_orElse, Option.some_orElse, Option.getD_some, Option.getD_none]
    rw [if_pos htr, if_neg (by simp [truthyOS, hrel])]

/-- Witness for C3: a namespaced server with one template; the override rel
comes back verbatim. -/
theorem c3_resolve_rel_override_bypasses_namespacing_witness :
    ((Response.resolve witLinkerOne { ns := some "ns" } "item" []
        { rel := some "custom" }).headD {}).rel = some "custom" :=
  (c3_resolve_rel_override_bypasses_namespacing witLinkerOne { ns := some "ns" }
      "item" [] { rel := some "custom" }).1 (by decide) _ (by decide)

/-- C5: when the overrides leave params unspecified, the params of a
resolved candidate are the union of the base (request) params and the
template params, the template winning on shared keys; when the overrides
specify params, they replace the others entirely. -/
theorem c5_resolve_params_union_or_replace (server : SrvCtx) (rel : String)
    (params : Params) (ov : Overrides) (tmpl : Overrides) :
    (ov.params = none →
      ∀ k, ((Response.resolveOne server rel params ov tmpl).params.getD []).lookup k
        = ((tmpl.params.getD []).lookup k).or (params.lookup k))
    ∧ (∀ p, ov.params = some p →
        (Response.resolveOne server rel params ov tmpl).params = some p) := by
  constructor
  · intro hp k
    rw [resolveOne_params_eval, if_pos (by simp [hp])]
    simp only [Option.getD_some]
    unfold Params.assign
    exact lookup_append_or _ _ k
  · intro p hp
    rw [resolveOne_params_eval, if_neg (by simp [hp]), hp]
    simp

/-- Witness for C5: a request param and a template param survive together
when no override params are given, and override params replace both. -/
theorem c5_resolve_params_union_or_replace_witness :
    ((Response.resolveOne {} "item" [("a", "1")] {}
        { params := some [("b", "2")] }).params.getD []).lookup "a"
      = (((({ params := some [("b", "2")] } : Overrides).params.getD []).lookup "a").or
          (([("a", "1")] : Params).lookup "a"))
    ∧ (Response.resolveOne {} "item" [("a", "1")] { params := some [("z", "9")] }
        { params := some [("b", "2")] }).params = some [("z", "9")] :=
  ⟨(c5_resolve_params_union_or_replace {} "item" [("a", "1")] {}
      { params := some [("b", "2")] }).1 rfl "a",
   (c5_resolve_params_union_or_replace {} "item" [("a", "1")]
      { params := some [("z", "9")] } { params := some [("b", "2")] }).2 [("z", "9")] rfl⟩

/-- C6: starting from a root whose links carry no curie with the given
name, any nonempty sequence of docs calls with that name, each from a
possibly different resource of the tree (hence with its own params and
href), leaves exactly one curie link with that name in the root links
collection, and any further docs call with that name is a no-op. The
instance docs method reads and writes only the root resource, so the link
resides at the root no matter which nested resource invoked it. -/
theorem c6_docs_curie_added_once (root : HalRes) (n : String)
    (h0 : curieCount root n = 0) (calls : List (Params × Href)) (hne : calls ≠ []) :
    curieCount (calls.foldl (fun acc c => Response.docsInst acc c.1 n c.2) root) n = 1
    ∧ ∀ p href,
        Response.docsInst (calls.foldl (fun acc c => Response.docsInst acc c.1 n c.2) root)
            p n href
          = calls.foldl (fun acc c => Response.docsInst acc c.1 n c.2) root := by
  cases calls with
  | nil => exact absurd rfl hne
  | cons c rest =>
    rw [List.foldl_cons]
    have h1 := docsInst_count_zero root c.1 n c.2 h0
    have hfix := foldl_docsInst_fixed n rest (Response.docsInst root c.1 n c.2)
      (by rw [h1]; exact one_ne_zero)
    rw [hfix]
    exact ⟨h1, fun p href => docsInst_count_ne_zero _ p n href (by rw [h1]; exact one_ne_zero)⟩

/-- Witness for C6: two docs calls with the same name from resources with
different params leave a single curie link. -/
theorem c6_docs_curie_added_once_witness :
    curieCount ([(([] : Params), Href.str "/docs/foo"),
        ([("x", "y")], Href.str "/docs/foo")].foldl
      (fun acc c => Response.docsInst acc c.1 "foo" c.2) (HalRes.empty "")) "foo" = 1 :=
  (c6_docs_curie_added_once (HalRes.empty "") "foo" rfl _ (by simp)).1

/-- C7: when the first resolved candidate for a rel has no truthy rel,
embed logs the unresolvable rel and leaves the embeds (and links) of the
parent resource untouched, while still returning a resource object; since
nothing was registered, the placeholder cannot appear in the serialized
embedded output of the parent. -/
theorem c7_embed_unresolvable_detached (L : Linker) (s : RespState) (rel : String)
    (value : Data) (ov : Overrides)
    (h : truthyOS ((Response.resolve L s.server rel s.params ov).headD {}).rel = false) :
    (Response.embedFn L s rel value ov).1.ownHal = s.ownHal
    ∧ ((Response.embedFn L s rel value ov).2.2).headD "" = unresolvableMsg s.server rel := by
  unfold Response.embedFn
  dsimp only
  rw [h]
  exact ⟨rfl, rfl⟩

/-- Witness for C7: an empty rel with no registered templates. -/
theorem c7_embed_unresolvable_detached_witness :
    (Response.embedFn witLinkerNone witState "" "body" {}).1.ownHal = witState.ownHal
    ∧ ((Response.embedFn witLinkerNone witState "" "body" {}).2.2).headD ""
        = unresolvableMsg witState.server "" :=
  c7_embed_unresolvable_detached witLinkerNone witState "" "body" {} (by decide)

/-- C8: embed depends only on the first candidate of resolve, so truncating
the linker to its first registered template for the rel (under the base
server) leaves the result of embed unchanged, while link processes every
candidate: it adds one link per well-formed candidate and logs one message
per ill-formed candidate over the whole candidate sequence. The override
carries an explicit empty links list so that the embedded resource performs
no inner link calls of its own. -/
theorem c8_embed_first_candidate_link_all_candidates (L : Linker) (s : RespState)
    (rel : String) (value : Data) (ov : Overrides) (hlk : ov.links = some []) :
    Response.embedFn L s rel value ov
      = Response.embedFn (L.truncateAt (ov.server.getD s.server) rel) s rel value ov
    ∧ SlotMap.total ((Response.linkFn L s rel ov).1.ownHal.links)
        = SlotMap.total s.ownHal.links
          + ((Response.resolve L s.server rel s.params ov).filter linkWF).length
    ∧ ((Response.linkFn L s rel ov).2).length
        = ((Response.resolve L s.server rel s.params ov).filter
            (fun c => !(linkWF c))).length := by
  refine ⟨embedFn_truncate_eq L s rel value ov hlk, ?_, ?_⟩
  · exact (linkFoldl_counts L rel (Response.resolve L s.server rel s.params ov) (s, [])).1
  · have h := (linkFoldl_counts L rel (Response.resolve L s.server rel s.params ov) (s, [])).2
    simpa using h

/-- Witness for C8: two registered templates; embed ignores the second while
link adds both links. -/
theorem c8_embed_first_candidate_link_all_candidates_witness :
    Response.embedFn witLinkerTwo witState "item" "body" { links := some [] }
      = Response.embedFn (witLinkerTwo.truncateAt {} "item") witState "item" "body"
          { links := some [] }
    ∧ SlotMap.total ((Response.linkFn witLinkerTwo witState "item"
          { links := some [] }).1.ownHal.links)
        = SlotMap.total witState.ownHal.links
          + ((Response.resolve witLinkerTwo witState.server "item" witState.params
              { links := some [] }).filter linkWF).length
    ∧ ((Response.linkFn witLinkerTwo witState "item" { links := some [] }).2).length
        = ((Response.resolve witLinkerTwo witState.server "item" witState.params
            { links := some [] }).filter (fun c => !(linkWF c))).length :=
  c8_embed_first_candidate_link_all_candidates witLinkerTwo witState "item" "body"
    { links := some [] } rfl

/-- C9: link registers a candidate exactly when both its rel and its href
are truthy, logging it otherwise, while embed attaches the embedded resource
whenever the first candidate has a truthy rel, with no condition on its
href. -/
theorem c9_link_needs_href_embed_does_not (L : Linker) :
    (∀ (origRel : String) (acc : RespState × List String) (c : Overrides),
        linkWF c = true →
        SlotMap.total ((Response.linkStep L origRel acc c).1.ownHal.links)
          = SlotMap.total acc.1.ownHal.links + 1)
    ∧ (∀ (origRel : String) (acc : RespState × List String) (c : Overrides),
        linkWF c = false →
        (Response.linkStep L origRel acc c).1.ownHal = acc.1.ownHal
        ∧ (Response.linkStep L origRel acc c).2
            = acc.2 ++ [unresolvableMsg acc.1.server origRel])
    ∧ (∀ (s : RespState) (rel : String) (value : Data) (ov : Overrides),
        truthyOS ((Response.resolve L s.server rel s.params ov).headD {}).rel = true →
        SlotMap.total ((Response.embedFn L s rel value ov).1.ownHal.embeds)
          = SlotMap.total s.ownHal.embeds + 1) := by
  refine ⟨fun o a c h => (linkStep_wf L o a c h).1, fun o a c h => linkStep_nonwf L o a c h, ?_⟩
  intro s rel value ov h
  unfold Response.embedFn
  dsimp only
  rw [h, if_pos rfl]
  rw [HalRes.embeds_ensureArrayEmbeds, SlotMap.total_ensureArray,
    HalRes.embeds_addEmbed, SlotMap.total_add]

/-- Witness for C9: a template with no href yields a candidate whose rel is
truthy and whose href is undefined; embed attaches it while link refuses the
same candidate. -/
theorem c9_link_needs_href_embed_does_not_witness :
    SlotMap.total ((Response.embedFn witLinkerBare witState "item" "body" {}).1.ownHal.embeds)
      = SlotMap.total witState.ownHal.embeds + 1
    ∧ (Response.linkStep witLinkerBare "item" ((witState, []) : RespState × List String)
          ((Response.resolve witLinkerBare witState.server "item" witState.params
            {}).headD {})).1.ownHal
        = ((witState, []) : RespState × List String).1.ownHal :=
  ⟨(c9_link_needs_href_embed_does_not witLinkerBare).2.2 witState "item" "body" {} (by decide),
   ((c9_link_needs_href_embed_does_not witLinkerBare).2.1 "item" (witState, [])
      ((Response.resolve witLinkerBare witState.server "item" witState.params {}).headD {})
      (by decide)).1⟩
